import Mathlib

/-!
Shallow embedding of the One-stop exam-scheduling and seating-allocation
core (`Exam Scheduling Algorithm/scheduler.py` and
`Exam Scheduling Algorithm/seating_allocation.py`), together with theorems
checking the specification's claims against it.

Python strings are Lean `String`s; Python string comparison is
code-point-lexicographic, which is `List.instLinearOrderList` on
`String.data`.  Python `datetime` values (dates only, parsed from
`DD.MM.YYYY`) are represented by their proleptic-Gregorian ordinals.
-/

namespace OneStop

/-- Calendar date (day, month, year), as parsed by `datetime.strptime`
from the `DD.MM.YYYY` strings used throughout `scheduler.py`. -/
structure Date where
  day : Nat
  month : Nat
  year : Nat
deriving DecidableEq, Repr

/-- Gregorian leap-year test, as in Python's `datetime` calendar. -/
def isLeap (y : Nat) : Bool :=
  (y % 4 == 0 && y % 100 != 0) || y % 400 == 0

/-- Number of days in the months strictly before month `m` (1-based). -/
def monthOffset (m : Nat) (leap : Bool) : Nat :=
  (match m with
   | 1 => 0 | 2 => 31 | 3 => 59 | 4 => 90 | 5 => 120 | 6 => 151
   | 7 => 181 | 8 => 212 | 9 => 243 | 10 => 273 | 11 => 304 | _ => 334)
  + (if leap && decide (3 ≤ m) then 1 else 0)

/-- Proleptic-Gregorian ordinal of a date (01.01.0001 ↦ 1): the day count
underlying Python `datetime` values.  `current += timedelta(days=1)` is
ordinal `+ 1`, and `datetime` comparison is ordinal comparison. -/
def dateOrdinal (d : Date) : Nat :=
  365 * (d.year - 1)
    + ((d.year - 1) / 4 - (d.year - 1) / 100 + (d.year - 1) / 400)
    + monthOffset d.month (isLeap d.year) + d.day

/-- Python's `datetime.weekday()`: Monday = 0 … Sunday = 6.
Ordinal 1 (01.01.0001) is a Monday in the proleptic Gregorian calendar. -/
def pyWeekday (o : Nat) : Nat := (o + 6) % 7

/-- `ExamScheduler.generate_available_dates` (scheduler.py 21–52), on date
ordinals.  The `while current <= end` walk with `current +=
timedelta(days=1)` enumerates the ordinals `start, start+1, …, end`; a day
is appended when `current.weekday() != 6` (skip only Sunday — Saturday is
a working day) and `current not in holiday_dates`. -/
def generateAvailableDates (startDate endDate : Date)
    (holidays : List Date) : List Nat :=
  let s := dateOrdinal startDate
  let e := dateOrdinal endDate
  let hols := holidays.map dateOrdinal
  ((List.range (e + 1 - s)).map (s + ·)).filter
    (fun o => pyWeekday o != 6 && !(decide (o ∈ hols)))

/-- The per-department last-exam summary consumed by
`ExamScheduler.validate_gap_constraint`. -/
structure LastExam where
  date : Date
  session : String
  subject_type : String

/-- `ExamScheduler.validate_gap_constraint` (scheduler.py 166–204).
`days_diff` is the signed difference in days of the two parsed dates;
the three checks run in sequence, each returning `(False, message)`. -/
def validateGapConstraint (lastExam : Option LastExam) (newDate : Date)
    (newSession : String) : Bool × String :=
  match lastExam with
  | none => (true, "")
  | some le =>
    let daysDiff : Int := (dateOrdinal newDate : Int) - (dateOrdinal le.date : Int)
    if le.subject_type = "HEAVY" ∧ daysDiff < 2 then
      (false, "Heavy subject needs 1 full day gap (only " ++ toString daysDiff ++ " days)")
    else if le.subject_type = "NONMAJOR" ∧ daysDiff = 0 ∧ newSession = le.session then
      (false, "Same session on same day for non-major")
    else if le.session = "AN" ∧ daysDiff = 1 ∧ newSession = "FN" then
      (false, "Cannot schedule FN next day after AN session")
    else (true, "")

/-- C9: for every start ≤ end and holiday list, `generate_available_dates`
returns a strictly increasing sequence of days inside the inclusive range
that contains no Sunday and no listed holiday; concretely, for
16.12.2025–27.12.2025 with no holidays it returns exactly the 11 days
other than 21.12.2025, which is a Sunday. -/
theorem generate_available_dates_sound :
    (∀ (startDate endDate : Date) (holidays : List Date),
      dateOrdinal startDate ≤ dateOrdinal endDate →
      (generateAvailableDates startDate endDate holidays).Sorted (· < ·) ∧
      ∀ o ∈ generateAvailableDates startDate endDate holidays,
        dateOrdinal startDate ≤ o ∧ o ≤ dateOrdinal endDate ∧
        pyWeekday o ≠ 6 ∧ ∀ h ∈ holidays, o ≠ dateOrdinal h) ∧
    generateAvailableDates ⟨16,12,2025⟩ ⟨27,12,2025⟩ [] =
      [16,17,18,19,20,22,23,24,25,26,27].map (fun d => dateOrdinal ⟨d,12,2025⟩) ∧
    pyWeekday (dateOrdinal ⟨21,12,2025⟩) = 6 := by
  refine ⟨?_, by decide, by decide⟩
  intro s e hol _hle
  constructor
  · exact ((List.pairwise_lt_range _).map _ (fun a b h => by omega)).filter _
  · intro o ho
    simp only [generateAvailableDates, List.mem_filter, List.mem_map,
      List.mem_range, Bool.and_eq_true, Bool.not_eq_true',
      decide_eq_false_iff_not, bne_iff_ne, ne_eq] at ho
    obtain ⟨⟨i, hi, rfl⟩, hwd, hcont⟩ := ho
    refine ⟨by omega, by omega, hwd, ?_⟩
    intro h hh heq
    exact hcont ⟨h, hh, heq.symm⟩

/-- Witness for `generate_available_dates_sound`: the universal part applied
to the concrete 16.12.2025–27.12.2025 scenario. -/
theorem generate_available_dates_sound_witness :
    dateOrdinal ⟨16,12,2025⟩ ≤ dateOrdinal ⟨27,12,2025⟩ ∧
    ((generateAvailableDates ⟨16,12,2025⟩ ⟨27,12,2025⟩ []).Sorted (· < ·) ∧
      ∀ o ∈ generateAvailableDates ⟨16,12,2025⟩ ⟨27,12,2025⟩ [],
        dateOrdinal ⟨16,12,2025⟩ ≤ o ∧ o ≤ dateOrdinal ⟨27,12,2025⟩ ∧
        pyWeekday o ≠ 6 ∧ ∀ h ∈ ([] : List Date), o ≠ dateOrdinal h) :=
  ⟨by decide, generate_available_dates_sound.1 ⟨16,12,2025⟩ ⟨27,12,2025⟩ [] (by decide)⟩

/-- C6: `validate_gap_constraint` rejects a candidate (date, session)
exactly when one of the three gap rules is violated — last exam HEAVY and
fewer than 2 days later; last exam NONMAJOR and same session on the same
day; last exam in AN and the candidate is the next day's FN — and always
accepts when there is no last exam. -/
theorem validate_gap_constraint_characterization :
    (∀ (le : LastExam) (newDate : Date) (newSession : String),
      ((validateGapConstraint (some le) newDate newSession).1 = false ↔
        (le.subject_type = "HEAVY" ∧
          (dateOrdinal newDate : Int) - (dateOrdinal le.date : Int) < 2) ∨
        (le.subject_type = "NONMAJOR" ∧
          (dateOrdinal newDate : Int) - (dateOrdinal le.date : Int) = 0 ∧
          newSession = le.session) ∨
        (le.session = "AN" ∧
          (dateOrdinal newDate : Int) - (dateOrdinal le.date : Int) = 1 ∧
          newSession = "FN"))) ∧
    ∀ (newDate : Date) (newSession : String),
      validateGapConstraint none newDate newSession = (true, "") := by
  refine ⟨?_, fun _ _ => rfl⟩
  intro le nd ns
  simp only [validateGapConstraint]
  split_ifs with h1 h2 h3
  · exact iff_of_true rfl (Or.inl h1)
  · exact iff_of_true rfl (Or.inr (Or.inl h2))
  · exact iff_of_true rfl (Or.inr (Or.inr h3))
  · exact iff_of_false (by simp) (fun h => h.elim h1 (fun h => h.elim h2 h3))

/-- A row of the `subjects` table (schema in db_setup.py; `subject_type`
is `"HEAVY"` or `"NONMAJOR"` in the seeded data). -/
structure SubjectRec where
  subject_id : Nat
  subject_code : String
  subject_name : String
  department : String
  year : Nat
  semester_type : String
  subject_type : String
  exam_type : String
  student_count : Nat
deriving DecidableEq, Repr

/-- A row of the `student_subjects` enrolment table (`is_arrear` is the
0/1 flag). -/
structure StudentSubject where
  student_id : Nat
  subject_id : Nat
  is_arrear : Bool
deriving DecidableEq, Repr

/-- The two tables read by `ExamScheduler.get_subjects_for_year`. -/
structure DB where
  subjects : List SubjectRec
  student_subjects : List StudentSubject

/-- The dictionaries built by `get_subjects_for_year` (scheduler.py
115–128); `subject_track` is `"REGULAR"` or `"ARREAR"`. -/
structure SubjectInfo where
  subject_id : Nat
  subject_code : String
  subject_name : String
  department : String
  year : Nat
  semester_type : String
  subject_type : String
  exam_type : String
  student_count : Nat
  subject_track : String
deriving DecidableEq, Repr

/-- Build a result row from a `subjects` record, a student count and a
track tag. -/
def mkSubjectInfo (s : SubjectRec) (count : Nat) (track : String) : SubjectInfo :=
  ⟨s.subject_id, s.subject_code, s.subject_name, s.department, s.year,
   s.semester_type, s.subject_type, s.exam_type, count, track⟩

/-- The `WHERE` clause shared by the queries of `get_subjects_for_year`:
`year = ? AND semester_type = ? AND (exam_type = ? OR exam_type = 'BOTH')`. -/
def subjectMatches (s : SubjectRec) (year : Nat) (semType examType : String) : Prop :=
  s.year = year ∧ s.semester_type = semType ∧
    (s.exam_type = examType ∨ s.exam_type = "BOTH")

instance (s : SubjectRec) (year : Nat) (semType examType : String) :
    Decidable (subjectMatches s year semType examType) := by
  unfold subjectMatches; infer_instance

/-- Rows of `query_regular` (scheduler.py 72–78): matching subjects with
their nominal `student_count`, tagged `'REGULAR'`. -/
def regularRows (db : DB) (year : Nat) (semType examType : String) : List SubjectInfo :=
  (db.subjects.filter (fun s => decide (subjectMatches s year semType examType))).map
    (fun s => mkSubjectInfo s s.student_count "REGULAR")

/-- `COUNT(DISTINCT ss.student_id)` over one subject's enrolments with
`ss.is_arrear = 1`: the number of distinct students carrying an arrear in
that subject. -/
def distinctArrearStudents (db : DB) (sid : Nat) : Nat :=
  (((db.student_subjects.filter
      (fun ss => decide (ss.subject_id = sid) && ss.is_arrear)).map
        (fun ss => ss.student_id)).dedup).length

/-- Rows of `query_arrear` (scheduler.py 81–93): the join of matching
subjects with `student_subjects` on `is_arrear = 1`, grouped by
`subject_id`, with `COUNT(DISTINCT ss.student_id) as student_count` and
`HAVING student_count > 0`; a subject with no arrear enrolment produces no
group (the join drops it), tagged `'ARREAR'`. -/
def arrearRows (db : DB) (year : Nat) (oppSem examType : String) : List SubjectInfo :=
  (db.subjects.filter (fun s => decide (subjectMatches s year oppSem examType))).filterMap
    (fun s =>
      if 0 < distinctArrearStudents db s.subject_id then
        some (mkSubjectInfo s (distinctArrearStudents db s.subject_id) "ARREAR")
      else none)

/-- The Python sort key of scheduler.py 131–136:
`(0 if subject_track == 'REGULAR' else 1,
  0 if subject_type == 'THEORY' else 1, department, subject_code)`,
compared lexicographically, with Python's code-point order on strings. -/
def subjectSortKey (r : SubjectInfo) :
    Lex (Nat × Lex (Nat × Lex (List Char × List Char))) :=
  toLex ((if r.subject_track = "REGULAR" then 0 else 1),
    toLex ((if r.subject_type = "THEORY" then 0 else 1),
      toLex (r.department.data, r.subject_code.data)))

/-- Comparison by the code's sort key. -/
def subjectSortLE (a b : SubjectInfo) : Prop := subjectSortKey a ≤ subjectSortKey b

instance : DecidableRel subjectSortLE :=
  fun a b => inferInstanceAs (Decidable (subjectSortKey a ≤ subjectSortKey b))

instance : IsTotal SubjectInfo subjectSortLE :=
  ⟨fun a b => le_total (subjectSortKey a) (subjectSortKey b)⟩

instance : IsTrans SubjectInfo subjectSortLE :=
  ⟨fun _ _ _ h h2 => le_trans h h2⟩

/-- `'EVEN' if semester_type == 'ODD' else 'ODD'` (scheduler.py 69). -/
def oppositeSemester (semType : String) : String :=
  if semType = "ODD" then "EVEN" else "ODD"

/-- `ExamScheduler.get_subjects_for_year` (scheduler.py 54–138): for
`SEMESTER` queries, the regular rows of the requested parity plus the
arrear rows of the opposite parity; otherwise only the regular rows;
finally Python's stable `list.sort` by the key above (modelled by stable
insertion sort with the same key). -/
def getSubjectsForYear (db : DB) (year : Nat) (examType semType : String) :
    List SubjectInfo :=
  let rows :=
    if examType = "SEMESTER" then
      regularRows db year semType examType ++
        arrearRows db year (oppositeSemester semType) examType
    else
      regularRows db year semType examType
  List.insertionSort subjectSortLE rows

/-- The ordering the spec claims for `get_subjects_for_year` output,
modelled from the spec's words for comparison with the code's key:
REGULAR before ARREAR, then HEAVY before NONMAJOR within a track, then
department, then subject code. -/
def claimSortKey (r : SubjectInfo) :
    Lex (Nat × Lex (Nat × Lex (List Char × List Char))) :=
  toLex ((if r.subject_track = "REGULAR" then 0 else 1),
    toLex ((if r.subject_type = "HEAVY" then 0 else 1),
      toLex (r.department.data, r.subject_code.data)))

/-- Comparison by the spec's claimed key. -/
def claimSortLE (a b : SubjectInfo) : Prop := claimSortKey a ≤ claimSortKey b

instance : DecidableRel claimSortLE :=
  fun a b => inferInstanceAs (Decidable (claimSortKey a ≤ claimSortKey b))

/-- Two INTERNAL-eligible regular subjects: a NONMAJOR one in department
"AAA" with code "A1" and a HEAVY one in department "BBB" with code "B1". -/
def exDB5 : DB :=
  { subjects :=
      [⟨1, "A1", "NonMajor A", "AAA", 2, "ODD", "NONMAJOR", "BOTH", 30⟩,
       ⟨2, "B1", "Heavy B", "BBB", 2, "ODD", "HEAVY", "BOTH", 40⟩],
    student_subjects := [] }

/-- C5 counterexample: on `exDB5` the query returns the NONMAJOR subject
before the HEAVY one (both REGULAR), because the code's type key compares
`subject_type` against `'THEORY'` — a value no subject carries — so HEAVY
gets no precedence over NONMAJOR and department order decides. -/
theorem get_subjects_ordering_counterexample :
    ¬ (getSubjectsForYear exDB5 2 "INTERNAL" "ODD").Sorted claimSortLE ∧
    (getSubjectsForYear exDB5 2 "INTERNAL" "ODD").map (fun r => r.subject_type)
      = ["NONMAJOR", "HEAVY"] ∧
    (getSubjectsForYear exDB5 2 "INTERNAL" "ODD").map (fun r => r.subject_track)
      = ["REGULAR", "REGULAR"] := by decide

/-- C5 amended: every `get_subjects_for_year` result is sorted by the
code's key — REGULAR before ARREAR, subjects typed `'THEORY'` before all
others, then department, then subject code.  Since the seeded subject
types are HEAVY/NONMAJOR (never THEORY), the type component is constant,
so within a track the order is department then subject code and HEAVY is
not ordered before NONMAJOR. -/
theorem get_subjects_for_year_sorted (db : DB) (year : Nat)
    (examType semType : String) :
    (getSubjectsForYear db year examType semType).Sorted subjectSortLE := by
  unfold getSubjectsForYear
  exact List.sorted_insertionSort subjectSortLE _

/-- `countP` of a predicate that can only hold at one key of a
key-distinct list, and holds at the given member. -/
theorem countP_eq_one_of_nodup_key {α : Type} (key : α → Nat) (p : α → Bool) :
    ∀ (l : List α), (l.map key).Nodup → ∀ s ∈ l, p s = true →
      (∀ a ∈ l, p a = true → key a = key s) → l.countP p = 1 := by
  intro l
  induction l with
  | nil => intro _ s hs; exact absurd hs (List.not_mem_nil s)
  | cons a t ih =>
    intro hn s hs hps hkey
    have hn' := List.nodup_cons.mp hn
    rcases List.mem_cons.mp hs with rfl | hst
    · rw [List.countP_cons, if_pos hps]
      have : t.countP p = 0 := by
        rw [List.countP_eq_zero]
        intro b hb hpb
        exact hn'.1 (List.mem_map.mpr ⟨b, hb,
          hkey b (List.mem_cons_of_mem _ hb) hpb⟩)
      omega
    · have hpa : ¬ p a = true := by
        intro hpa
        exact hn'.1 (List.mem_map.mpr ⟨s, hst,
          (hkey a (List.mem_cons_self a t) hpa).symm⟩)
      rw [List.countP_cons, if_neg hpa]
      have := ih hn'.2 s hst hps
        (fun b hb hpb => hkey b (List.mem_cons_of_mem _ hb) hpb)
      omega

/-- C7: for `SEMESTER` queries, each ARREAR row comes from an eligible
opposite-parity subject with at least one arrear enrolment and carries the
distinct-arrear-student count; there is exactly one such row per such
subject; and `INTERNAL` queries never return an ARREAR row. -/
theorem get_subjects_for_year_arrear_rows (db : DB) (year : Nat)
    (semType : String) (hids : (db.subjects.map (fun s => s.subject_id)).Nodup) :
    (∀ r ∈ getSubjectsForYear db year "SEMESTER" semType,
      r.subject_track = "ARREAR" →
      ∃ s ∈ db.subjects, s.subject_id = r.subject_id ∧
        subjectMatches s year (oppositeSemester semType) "SEMESTER" ∧
        0 < distinctArrearStudents db s.subject_id ∧
        r.student_count = distinctArrearStudents db s.subject_id) ∧
    (∀ s ∈ db.subjects,
      subjectMatches s year (oppositeSemester semType) "SEMESTER" →
      0 < distinctArrearStudents db s.subject_id →
      (getSubjectsForYear db year "SEMESTER" semType).countP
        (fun r => decide (r.subject_id = s.subject_id ∧
          r.subject_track = "ARREAR")) = 1) ∧
    (∀ r ∈ getSubjectsForYear db year "INTERNAL" semType,
      r.subject_track = "REGULAR") := by
  refine ⟨?_, ?_, ?_⟩
  · intro r hr htrack
    unfold getSubjectsForYear at hr
    rw [if_pos rfl] at hr
    have hr' := (List.perm_insertionSort subjectSortLE _).mem_iff.mp hr
    rcases List.mem_append.mp hr' with hreg | harr
    · exfalso
      rcases List.mem_map.mp hreg with ⟨s, _, rfl⟩
      simp [mkSubjectInfo] at htrack
    · rcases List.mem_filterMap.mp harr with ⟨s, hsf, hsome⟩
      rcases List.mem_filter.mp hsf with ⟨hsmem, hsmatch⟩
      by_cases hn : 0 < distinctArrearStudents db s.subject_id
      · rw [if_pos hn] at hsome
        cases hsome
        exact ⟨s, hsmem, rfl, of_decide_eq_true hsmatch, hn, rfl⟩
      · rw [if_neg hn] at hsome
        cases hsome
  · intro s hsmem hsmatch hn
    unfold getSubjectsForYear
    rw [if_pos rfl]
    rw [(List.perm_insertionSort subjectSortLE _).countP_eq]
    rw [List.countP_append]
    have hreg0 : (regularRows db year semType "SEMESTER").countP
        (fun r => decide (r.subject_id = s.subject_id ∧
          r.subject_track = "ARREAR")) = 0 := by
      rw [List.countP_eq_zero]
      intro r hr
      rcases List.mem_map.mp hr with ⟨u, _, rfl⟩
      simp [mkSubjectInfo]
    rw [hreg0]
    have harr1 : (arrearRows db year (oppositeSemester semType) "SEMESTER").countP
        (fun r => decide (r.subject_id = s.subject_id ∧
          r.subject_track = "ARREAR")) = 1 := by
      unfold arrearRows
      rw [List.countP_filterMap]
      have hsub : ((db.subjects.filter (fun u =>
          decide (subjectMatches u year (oppositeSemester semType) "SEMESTER"))).map
            (fun u => u.subject_id)).Nodup :=
        ((List.filter_sublist db.subjects).map (fun u => u.subject_id)).nodup hids
      have hsfil : s ∈ db.subjects.filter (fun u =>
          decide (subjectMatches u year (oppositeSemester semType) "SEMESTER")) :=
        List.mem_filter.mpr ⟨hsmem, decide_eq_true hsmatch⟩
      refine countP_eq_one_of_nodup_key (fun u => u.subject_id) _ _ hsub s hsfil ?_ ?_
      · rw [if_pos hn]
        simp [mkSubjectInfo]
      · intro a _ hpa
        by_cases hna : 0 < distinctArrearStudents db a.subject_id
        · rw [if_pos hna] at hpa
          simp [mkSubjectInfo] at hpa
          exact hpa
        · rw [if_neg hna] at hpa
          simp at hpa
    rw [harr1]
  · intro r hr
    unfold getSubjectsForYear at hr
    rw [if_neg (by decide)] at hr
    have hr' := (List.perm_insertionSort subjectSortLE _).mem_iff.mp hr
    rcases List.mem_map.mp hr' with ⟨s, _, rfl⟩
    rfl

/-- A database exercising `get_subjects_for_year`: one regular ODD subject
and one EVEN subject with two distinct arrear students. -/
def exDB7 : DB :=
  { subjects :=
      [⟨1, "CS1", "Regular One", "CSE", 2, "ODD", "HEAVY", "BOTH", 50⟩,
       ⟨2, "CS2", "Opposite Two", "CSE", 2, "EVEN", "HEAVY", "SEMESTER", 40⟩],
    student_subjects := [⟨100, 2, true⟩, ⟨101, 2, true⟩, ⟨100, 1, false⟩] }

/-- Witness for `get_subjects_for_year_arrear_rows` at `exDB7`. -/
theorem get_subjects_for_year_arrear_rows_witness :
    ((exDB7.subjects.map (fun s => s.subject_id)).Nodup) ∧
    ((∀ r ∈ getSubjectsForYear exDB7 2 "SEMESTER" "ODD",
      r.subject_track = "ARREAR" →
      ∃ s ∈ exDB7.subjects, s.subject_id = r.subject_id ∧
        subjectMatches s 2 (oppositeSemester "ODD") "SEMESTER" ∧
        0 < distinctArrearStudents exDB7 s.subject_id ∧
        r.student_count = distinctArrearStudents exDB7 s.subject_id) ∧
    (∀ s ∈ exDB7.subjects,
      subjectMatches s 2 (oppositeSemester "ODD") "SEMESTER" →
      0 < distinctArrearStudents exDB7 s.subject_id →
      (getSubjectsForYear exDB7 2 "SEMESTER" "ODD").countP
        (fun r => decide (r.subject_id = s.subject_id ∧
          r.subject_track = "ARREAR")) = 1) ∧
    (∀ r ∈ getSubjectsForYear exDB7 2 "INTERNAL" "ODD",
      r.subject_track = "REGULAR")) :=
  ⟨by decide, get_subjects_for_year_arrear_rows exDB7 2 "ODD" (by decide)⟩

/-- An exam entry appended by `schedule_semester_exams` (scheduler.py
296–306 / 317–327). -/
structure SemExam where
  subject_id : Nat
  subject_code : String
  subject_name : String
  department : String
  date : String
  session : String
  subject_type : String
  student_count : Nat
  semester_type : String
deriving DecidableEq, Repr

/-- An exam entry appended by `schedule_internal_exams` (scheduler.py
433–442); it has no `semester_type` key. -/
structure InternalExam where
  subject_id : Nat
  subject_code : String
  subject_name : String
  department : String
  date : String
  session : String
  subject_type : String
  student_count : Nat
deriving DecidableEq, Repr

/-- A violation record as appended by the scheduling policies. -/
structure Violation where
  subject_id : Nat
  subject_code : String
  violation_type : String
  description : String
  severity : String
deriving DecidableEq, Repr

/-- The per-department grouping both schedulers build (scheduler.py
237–250 and 367–372): a Python dict appended to in subject order, so keys
appear in first-occurrence order and each group keeps subject order. -/
def groupByDept (subjects : List SubjectInfo) : List (String × List SubjectInfo) :=
  ((subjects.map (fun s => s.department)).dedup).map
    (fun d => (d, subjects.filter (fun s => decide (s.department = d))))

/-- `max(len(subjs) for subjs in groups.values())`, with the schedulers'
`if dept_groups else 0` convention for an empty grouping. -/
def maxGroupLen (groups : List (String × List SubjectInfo)) : Nat :=
  (groups.map (fun g => g.2.length)).foldr max 0

/-- `sorted(by_dept.items())`: Python sorts the (key, value) pairs, which
for distinct string keys is ordering by department name. -/
def sortedItems (groups : List (String × List SubjectInfo)) :
    List (String × List SubjectInfo) :=
  List.insertionSort (fun a b => a.1.data ≤ b.1.data) groups

/-- One dated round of `schedule_semester_exams` (scheduler.py 293–306):
for each department in sorted order, if the department still has a subject
at index `r`, emit it on `date`; the session is the constant `'FN'`. -/
def semRoundEntries (byDept : List (String × List SubjectInfo)) (r : Nat)
    (date : String) (sem : String) : List SemExam :=
  (sortedItems byDept).filterMap (fun g =>
    (g.2.get? r).map (fun subject =>
      ⟨subject.subject_id, subject.subject_code, subject.subject_name, g.1,
       date, "FN", subject.subject_type, subject.student_count, sem⟩))

/-- The `while round_num < max_rounds and date_index < len(available_dates)`
loop of `schedule_semester_exams` (scheduler.py 288–331).  Each iteration
places round `roundNum` of the primary parity on the next date (when that
parity still has a round and a date remains), then likewise for the
secondary parity, then advances the round.  `fuel` bounds the remaining
rounds; the top-level call passes `maxRounds`, which the loop never
exceeds.  The `violations` list is threaded through untouched — this
policy never appends to it. -/
def semesterLoop (primary secondary : List (String × List SubjectInfo))
    (pSem sSem : String) (dates : List String) (maxP maxS maxRounds : Nat)
    (viols : List Violation) :
    Nat → Nat → Nat → List SemExam × List Violation
  | 0, _, _ => ([], viols)
  | fuel + 1, roundNum, dateIndex =>
    if roundNum < maxRounds ∧ dateIndex < dates.length then
      let step1 :=
        if roundNum < maxP ∧ dateIndex < dates.length then
          (semRoundEntries primary roundNum (dates.getD dateIndex "") pSem,
           dateIndex + 1)
        else ([], dateIndex)
      let step2 :=
        if roundNum < maxS ∧ step1.2 < dates.length then
          (semRoundEntries secondary roundNum (dates.getD step1.2 "") sSem,
           step1.2 + 1)
        else ([], step1.2)
      let rest := semesterLoop primary secondary pSem sSem dates maxP maxS
        maxRounds viols fuel (roundNum + 1) step2.2
      (step1.1 ++ step2.1 ++ rest.1, rest.2)
    else ([], viols)

/-- `ExamScheduler.schedule_semester_exams` (scheduler.py 206–337) after
date generation: fatal error on an empty date list, then the round-robin
alternating loop starting from the requested parity.  Returns the schedule
together with the (never-written) violation list. -/
def scheduleSemesterExams (oddSubjects evenSubjects : List SubjectInfo)
    (semesterType : String) (availableDates : List String) :
    Except String (List SemExam × List Violation) :=
  if availableDates = [] then Except.error "No available dates for scheduling!"
  else
    let oddByDept := groupByDept oddSubjects
    let evenByDept := groupByDept evenSubjects
    let maxOdd := maxGroupLen oddByDept
    let maxEven := maxGroupLen evenByDept
    if semesterType = "ODD" then
      Except.ok (semesterLoop oddByDept evenByDept "ODD" "EVEN" availableDates
        maxOdd maxEven (max maxOdd maxEven) [] (max maxOdd maxEven) 0 0)
    else
      Except.ok (semesterLoop evenByDept oddByDept "EVEN" "ODD" availableDates
        maxEven maxOdd (max maxEven maxOdd) [] (max maxEven maxOdd) 0 0)

/-- The violation list returned by `semesterLoop` is whatever was passed
in: the round-robin policy never records a violation. -/
theorem semesterLoop_viols (primary secondary : List (String × List SubjectInfo))
    (pSem sSem : String) (dates : List String) (maxP maxS maxRounds : Nat)
    (viols : List Violation) :
    ∀ (fuel roundNum dateIndex : Nat),
      (semesterLoop primary secondary pSem sSem dates maxP maxS maxRounds
        viols fuel roundNum dateIndex).2 = viols := by
  intro fuel
  induction fuel with
  | zero => intro _ _; rfl
  | succ n ih =>
    intro roundNum dateIndex
    rw [semesterLoop]
    split
    · exact ih _ _
    · rfl

instance {ε α : Type} [DecidableEq ε] [DecidableEq α] : DecidableEq (Except ε α)
  | .error e, .error f =>
    if h : e = f then isTrue (by rw [h]) else
      isFalse (by intro hc; cases hc; exact h rfl)
  | .error _, .ok _ => isFalse (by intro hc; cases hc)
  | .ok _, .error _ => isFalse (by intro hc; cases hc)
  | .ok a, .ok b =>
    if h : a = b then isTrue (by rw [h]) else
      isFalse (by intro hc; cases hc; exact h rfl)

/-- Two ODD-parity subjects of one department, used to exercise the
silent-drop behaviour with a single available date. -/
def ex8odd : List SubjectInfo :=
  [⟨1, "CS1", "Subject One", "CSE", 2, "ODD", "HEAVY", "BOTH", 50, "REGULAR"⟩,
   ⟨2, "CS2", "Subject Two", "CSE", 2, "ODD", "HEAVY", "BOTH", 40, "REGULAR"⟩]

/-- C8: the round-robin alternating policy returns an empty violation list
on every run, and when the dates run out before the rounds the remaining
subjects are silently dropped: with two subjects in one department and a
single date, exactly one exam is scheduled, the violation list is empty,
and only the count mismatch (1 scheduled < 2 in the pool) records the
drop. -/
theorem schedule_semester_exams_silent_drop :
    (∀ (oddSubjects evenSubjects : List SubjectInfo) (semesterType : String)
       (availableDates : List String) (sched : List SemExam)
       (viols : List Violation),
       scheduleSemesterExams oddSubjects evenSubjects semesterType availableDates
         = Except.ok (sched, viols) → viols = []) ∧
    scheduleSemesterExams ex8odd [] "ODD" ["16.12.2025"] =
      Except.ok ([⟨1, "CS1", "Subject One", "CSE", "16.12.2025", "FN", "HEAVY",
        50, "ODD"⟩], []) ∧
    1 < ex8odd.length := by
  refine ⟨?_, by decide, by decide⟩
  intro odd even st dates sched viols h
  unfold scheduleSemesterExams at h
  split_ifs at h
  all_goals
    first
    | exact Except.noConfusion h
    | (injection h with h
       have hv := congrArg Prod.snd h
       rw [semesterLoop_viols] at hv
       exact hv.symm)

/-- Witness for `schedule_semester_exams_silent_drop`: its universal part
applied to the concrete single-date run. -/
theorem schedule_semester_exams_silent_drop_witness :
    ([] : List Violation) = [] :=
  schedule_semester_exams_silent_drop.1 ex8odd [] "ODD" ["16.12.2025"]
    [⟨1, "CS1", "Subject One", "CSE", "16.12.2025", "FN", "HEAVY", 50, "ODD"⟩]
    [] (by decide)

/-- The date-sufficiency test of `schedule_internal_exams` (scheduler.py
385–387): Python computes `min_days_needed = (max_subjects_per_dept + 1) / 2`
with true (float) division — exact for these magnitudes — and raises when
`len(available_dates) < min_days_needed`.  Over the naturals,
`n < (m + 1) / 2` as rationals holds exactly when `2 * n < m + 1`. -/
def datesInsufficient (numDates maxPerDept : Nat) : Bool :=
  decide (2 * numDates < maxPerDept + 1)

/-- The boolean test agrees with the source's exact rational comparison
`len(available_dates) < (max_subjects_per_dept + 1) / 2`. -/
theorem datesInsufficient_iff_rat (n m : Nat) :
    datesInsufficient n m = true ↔ (n : ℚ) < ((m : ℚ) + 1) / 2 := by
  rw [datesInsufficient, decide_eq_true_iff,
    lt_div_iff₀ (by norm_num : (0 : ℚ) < 2),
    show ((m : ℚ) + 1) = ((m + 1 : Nat) : ℚ) by push_cast; ring,
    show ((n : ℚ) * 2) = ((n * 2 : Nat) : ℚ) by push_cast; ring,
    Nat.cast_lt]
  omega

/-- The slot-assignment loop of `schedule_internal_exams` (scheduler.py
419–455): for each subject in order, take the first `(date, session)` slot
whose `(department, date, session)` key is unused, record the key and emit
the exam; otherwise record a HIGH-severity `NO_SLOT_AVAILABLE` violation.
The dict key `f"{dept}_{date}_{session}"` is modelled by the triple. -/
def internalAssign (slots : List (String × String)) :
    List SubjectInfo → List (String × String × String) →
    List InternalExam × List Violation
  | [], _ => ([], [])
  | subject :: rest, used =>
    match slots.find?
      (fun sl => !(decide ((subject.department, sl.1, sl.2) ∈ used))) with
    | some sl =>
      let r := internalAssign slots rest ((subject.department, sl.1, sl.2) :: used)
      (⟨subject.subject_id, subject.subject_code, subject.subject_name,
        subject.department, sl.1, sl.2, subject.subject_type,
        subject.student_count⟩ :: r.1, r.2)
    | none =>
      let r := internalAssign slots rest used
      (r.1, ⟨subject.subject_id, subject.subject_code, "NO_SLOT_AVAILABLE",
        "Could not find available slot", "HIGH"⟩ :: r.2)

/-- `ExamScheduler.schedule_internal_exams` (scheduler.py 339–456) after
date generation: fatal errors for an empty date list or subject pool, then
the date-sufficiency check (the error names `int(min_days_needed)`, which
is `(maxPerDept + 1) / 2` rounded toward zero, i.e. ⌈maxPerDept / 2⌉), the
session-mode decision (`both FN and AN when fewer dates than the largest
department needs, else FN only`), the `date × session` slot list, and the
fixed-slot-filling assignment. -/
def scheduleInternalExams (subjects : List SubjectInfo)
    (availableDates : List String) :
    Except String (List InternalExam × List Violation) :=
  if availableDates = [] then
    Except.error "No available dates for scheduling!"
  else if subjects = [] then
    Except.error "No internal subjects found"
  else
    let maxPerDept := maxGroupLen (groupByDept subjects)
    if datesInsufficient availableDates.length maxPerDept then
      Except.error ("Cannot schedule - insufficient dates. Need at least "
        ++ toString ((maxPerDept + 1) / 2) ++ " days for "
        ++ toString maxPerDept ++ " subjects (max in single department). Only "
        ++ toString availableDates.length ++ " days available.")
    else
      let sessions :=
        if availableDates.length < maxPerDept then ["FN", "AN"] else ["FN"]
      let slots := availableDates.flatMap (fun d => sessions.map (fun s => (d, s)))
      Except.ok (internalAssign slots subjects [])

/-- Four INTERNAL subjects of one department: the largest department needs
ceil(4 / 2) = 2 dual-session days. -/
def exC1subjects : List SubjectInfo :=
  [⟨1, "CS1", "Subject One", "CSE", 2, "ODD", "HEAVY", "INTERNAL", 50, "REGULAR"⟩,
   ⟨2, "CS2", "Subject Two", "CSE", 2, "ODD", "HEAVY", "INTERNAL", 50, "REGULAR"⟩,
   ⟨3, "CS3", "Subject Three", "CSE", 2, "ODD", "NONMAJOR", "INTERNAL", 50, "REGULAR"⟩,
   ⟨4, "CS4", "Subject Four", "CSE", 2, "ODD", "NONMAJOR", "INTERNAL", 50, "REGULAR"⟩]

/-- Exactly ceil(4 / 2) = 2 available dates. -/
def exC1dates : List String := ["16.12.2025", "17.12.2025"]

/-- C1 failing input: with 4 subjects in one department and 2 available
dates — exactly the computed minimum ceil(4 / 2) the claim requires — the
run still raises the "insufficient dates" error, whose text names a
2-day minimum while admitting 2 days are available: the comparison
`len(available_dates) < (max + 1) / 2` uses Python 3 true division, so
for an even maximum it rejects the stated minimum itself. -/
theorem schedule_internal_insufficient_dates_bug :
    scheduleInternalExams exC1subjects exC1dates =
      Except.error ("Cannot schedule - insufficient dates. Need at least 2 "
        ++ "days for 4 subjects (max in single department). Only 2 days "
        ++ "available.") ∧
    maxGroupLen (groupByDept exC1subjects) = 4 ∧
    ¬ (exC1dates.length < (4 + 1) / 2) := by
  refine ⟨by decide, by decide, by decide⟩

/-- A student row of the seating roster (register number, name,
department). -/
structure Student where
  regNo : String
  name : String
  dept : String
deriving DecidableEq, Repr

/-- A hall of the catalog: name and capacity (`capacity` counts benches
for Internal mode, seats for SEM mode). -/
structure Hall where
  hallno : String
  capacity : Nat
deriving DecidableEq, Repr

/-- A seat-assignment record as appended by the allocation loops (the
redundant `Bench Number`, equal to `Seat No`, is omitted). -/
structure Alloc where
  hallNo : String
  seatNo : Nat
  regNo : String
  name : String
  dept : String
deriving DecidableEq, Repr

/-- Effective capacity (seating_allocation.py 200–205): benches hold two
students for Internal exams, one for SEM. -/
def effectiveCapacity (twoPerBench : Bool) (h : Hall) : Nat :=
  if twoPerBench then h.capacity * 2 else h.capacity

/-- The greedy accumulation of `optimize_hall_selection` (214–218): walk
the capacity-sorted list, breaking as soon as the accumulated capacity
covers the roster; returns (number taken, final accumulated capacity). -/
def greedySelect (total : Nat) : List Nat → Nat → Nat × Nat
  | [], acc => (0, acc)
  | e :: rest, acc =>
    if total ≤ acc then (0, acc)
    else
      let r := greedySelect total rest (acc + e)
      (r.1 + 1, r.2)

/-- `optimize_hall_selection` (193–224).  `sort_values` +
`reset_index(drop=True)` relabels the sorted rows 0,1,2,…, so the
selected index list is always the prefix `[0, …, k-1]`; the allocators
then look these labels up in the original `halls_df`, so the halls
actually filled are the first `k` catalog halls in catalog order, with
`k` determined on the capacity-sorted list.  If even the whole catalog
cannot cover the roster, every hall is used (`list(range(len))`). -/
def selectHallCount (twoPerBench : Bool) (halls : List Hall) (total : Nat) : Nat :=
  let sortedCaps := List.insertionSort (· ≤ ·)
    (halls.map (effectiveCapacity twoPerBench))
  let r := greedySelect total sortedCaps 0
  if r.2 < total then halls.length else r.1

/-- Department grouping of both allocators (261–267 / 375–381): distinct
departments in sorted order; each department's sub-roster is sorted by
register number and then shuffled by `sample(frac=1, random_state=42)` —
a fixed, input-independent permutation, abstracted as the `shuffle`
parameter (all any claim needs is that it permutes its input). -/
def groupStudents (shuffle : List Student → List Student)
    (students : List Student) : List (String × List Student) :=
  (List.insertionSort (fun a b => a.data ≤ b.data)
      ((students.map (fun s => s.dept)).dedup)).map
    (fun d => (d, shuffle (students.filter (fun s => decide (s.dept = d)))))

/-- `random.choice(seq)` drawn from the ambient, process-global `random`
module: the `k`-th call of a run returns `seq[cs k % len(seq)]`.  Every
stream `cs` yields a valid element and every element is reachable by some
stream; the stream is the (unseeded) generator state. -/
def pickGroup (cs : Nat → Nat) (k : Nat) (l : List (String × List Student)) :
    String × List Student :=
  l.getD (cs k % l.length) ("", [])

/-- `available_depts` (284–286 / 374–376): the departments whose pointer
has not reached the end of their group, in dict (= sorted) order. -/
def availableGroups (groups : List (String × List Student)) :
    List (String × List Student) :=
  groups.filter (fun g => !g.2.isEmpty)

/-- The department choice both allocators make for a seat's (first)
student (292–302 / 381–385): while the current hall holds fewer than two
distinct departments, prefer one not yet in the hall; otherwise — or when
every available department is already in the hall — choose among all
available departments. -/
def chooseGroup (cs : Nat → Nat) (k : Nat)
    (groups : List (String × List Student)) (hallDepts : List String) :
    String × List Student :=
  if hallDepts.length < 2 then
    if ((availableGroups groups).filter
        (fun g => !(decide (g.1 ∈ hallDepts)))).isEmpty then
      pickGroup cs k (availableGroups groups)
    else
      pickGroup cs k ((availableGroups groups).filter
        (fun g => !(decide (g.1 ∈ hallDepts))))
  else pickGroup cs k (availableGroups groups)

/-- `dept_pointers[dept] += 1`: drop the first remaining student of every
group carrying that department key. -/
def consume (groups : List (String × List Student)) (d : String) :
    List (String × List Student) :=
  groups.map (fun g => if g.1 = d then (g.1, g.2.tail) else g)

/-- `current_hall_depts.add(d)` on the tracked department set. -/
def insertDept (d : String) (l : List String) : List String :=
  if d ∈ l then l else d :: l

/-- The next student of the chosen department: the one at the
department's pointer (`dept_groups[dept].iloc[dept_pointers[dept]]`). -/
def chosenStudent (cs : Nat → Nat) (k : Nat)
    (groups : List (String × List Student)) (hallDepts : List String) : Student :=
  (chooseGroup cs k groups hallDepts).2.headD ⟨"", "", ""⟩

/-- The allocation record appended for one student (`Hall No`, `Seat No`,
`Register Number`, `Name`, `Department`). -/
def mkAlloc (h : Hall) (seat : Nat) (st : Student) : Alloc :=
  ⟨h.hallno, seat, st.regNo, st.name, st.dept⟩

/-- `other_depts` for the Internal bench-mate (412–414): after the first
student is seated, the available departments other than the first
student's. -/
def internalOther (cs : Nat → Nat) (k : Nat)
    (groups : List (String × List Student)) (hallDepts : List String) :
    List (String × List Student) :=
  (availableGroups (consume groups (chooseGroup cs k groups hallDepts).1)).filter
    (fun g => !(decide (g.1 = (chooseGroup cs k groups hallDepts).1)))

/-- The bench-mate's group: `dept2 = random.choice(other_depts)` (415). -/
def benchMate (cs : Nat → Nat) (k : Nat)
    (groups : List (String × List Student)) (hallDepts : List String) :
    String × List Student :=
  pickGroup cs (k + 1) (internalOther cs k groups hallDepts)

/-- The seat-filling loop of `_allocate_sem_linear_optimized`
(seating_allocation.py 280–330): while students and halls remain, choose
a department (diversity-aware), seat its next student at the current seat
of the current hall, and advance — to the next hall with seat counter 1
and a fresh department set once `current_seat_in_hall + 1 > capacity`.
Each iteration seats exactly one student, so `fuel` = roster size makes
the recursion coincide with the `while total_allocated < total_students`
loop; `k` counts `random.choice` calls. -/
def semLoop (cs : Nat → Nat) : Nat → Nat → List (String × List Student) →
    List Hall → Nat → List String → List Alloc
  | 0, _, _, _, _, _ => []
  | _ + 1, _, _, [], _, _ => []
  | fuel + 1, k, groups, hall :: rest, seat, hallDepts =>
    if (availableGroups groups).isEmpty then []
    else if seat + 1 > hall.capacity then
      mkAlloc hall seat (chosenStudent cs k groups hallDepts) ::
        semLoop cs fuel (k + 1)
          (consume groups (chooseGroup cs k groups hallDepts).1) rest 1 []
    else
      mkAlloc hall seat (chosenStudent cs k groups hallDepts) ::
        semLoop cs fuel (k + 1)
          (consume groups (chooseGroup cs k groups hallDepts).1) (hall :: rest)
          (seat + 1) (insertDept (chooseGroup cs k groups hallDepts).1 hallDepts)

/-- The bench-filling loop of `_allocate_internal_alternating_optimized`
(seating_allocation.py 369–434): each iteration seats one student at the
current bench and then, when a department other than the first student's
still has unseated students, a bench-mate chosen among those departments;
the bench counter advances, moving to the next hall once
`current_seat_in_hall + 1 > capacity` (capacity counts benches).  Each
iteration seats one or two students, so `fuel` = roster size again covers
the whole `while` loop; `k` advances once per `random.choice` call. -/
def internalLoop (cs : Nat → Nat) : Nat → Nat → List (String × List Student) →
    List Hall → Nat → List String → List Alloc
  | 0, _, _, _, _, _ => []
  | _ + 1, _, _, [], _, _ => []
  | fuel + 1, k, groups, hall :: rest, seat, hallDepts =>
    if (availableGroups groups).isEmpty then []
    else if (internalOther cs k groups hallDepts).isEmpty then
      if seat + 1 > hall.capacity then
        mkAlloc hall seat (chosenStudent cs k groups hallDepts) ::
          internalLoop cs fuel (k + 1)
            (consume groups (chooseGroup cs k groups hallDepts).1) rest 1 []
      else
        mkAlloc hall seat (chosenStudent cs k groups hallDepts) ::
          internalLoop cs fuel (k + 1)
            (consume groups (chooseGroup cs k groups hallDepts).1) (hall :: rest)
            (seat + 1) (insertDept (chooseGroup cs k groups hallDepts).1 hallDepts)
    else if seat + 1 > hall.capacity then
      mkAlloc hall seat (chosenStudent cs k groups hallDepts) ::
        mkAlloc hall seat ((benchMate cs k groups hallDepts).2.headD ⟨"", "", ""⟩) ::
          internalLoop cs fuel (k + 2)
            (consume (consume groups (chooseGroup cs k groups hallDepts).1)
              (benchMate cs k groups hallDepts).1) rest 1 []
    else
      mkAlloc hall seat (chosenStudent cs k groups hallDepts) ::
        mkAlloc hall seat ((benchMate cs k groups hallDepts).2.headD ⟨"", "", ""⟩) ::
          internalLoop cs fuel (k + 2)
            (consume (consume groups (chooseGroup cs k groups hallDepts).1)
              (benchMate cs k groups hallDepts).1) (hall :: rest) (seat + 1)
            (insertDept (benchMate cs k groups hallDepts).1
              (insertDept (chooseGroup cs k groups hallDepts).1 hallDepts))

/-- `_allocate_sem_linear_optimized` on the optimizer's hall subset:
one student per seat, starting at seat 1 of the first selected hall. -/
def allocateSem (shuffle : List Student → List Student) (cs : Nat → Nat)
    (students : List Student) (halls : List Hall) : List Alloc :=
  semLoop cs
    (((groupStudents shuffle students).map (fun g => g.2.length)).foldr (· + ·) 0)
    0 (groupStudents shuffle students)
    (halls.take (selectHallCount false halls students.length)) 1 []

/-- `_allocate_internal_alternating_optimized` on the optimizer's hall
subset: up to two students per bench, starting at bench 1 of the first
selected hall. -/
def allocateInternal (shuffle : List Student → List Student) (cs : Nat → Nat)
    (students : List Student) (halls : List Hall) : List Alloc :=
  internalLoop cs
    (((groupStudents shuffle students).map (fun g => g.2.length)).foldr (· + ·) 0)
    0 (groupStudents shuffle students)
    (halls.take (selectHallCount true halls students.length)) 1 []

/-- `allocate_seats_mixed_department` (226–251): SEM exams use the linear
one-per-bench allocator, anything else the alternating two-per-bench
allocator. -/
def allocateSeatsMixedDepartment (examType : String)
    (shuffle : List Student → List Student) (cs : Nat → Nat)
    (students : List Student) (halls : List Hall) : List Alloc :=
  if examType = "SEM" ∨ examType = "SEMESTER" then
    allocateSem shuffle cs students halls
  else
    allocateInternal shuffle cs students halls

/-- A `pickGroup` from a nonempty list is a member of it. -/
theorem pickGroup_mem (cs : Nat → Nat) (k : Nat)
    (l : List (String × List Student)) (h : l ≠ []) : pickGroup cs k l ∈ l := by
  have hl : 0 < l.length := List.length_pos.mpr h
  have hlt : cs k % l.length < l.length := Nat.mod_lt _ hl
  rw [pickGroup, List.getD_eq_getElem?_getD, List.getElem?_eq_getElem hlt]
  exact List.getElem_mem hlt

/-- The chosen group always has unseated students (is available). -/
theorem chooseGroup_mem_avail (cs : Nat → Nat) (k : Nat)
    (groups : List (String × List Student)) (hallDepts : List String)
    (h : ¬ (availableGroups groups).isEmpty = true) :
    chooseGroup cs k groups hallDepts ∈ availableGroups groups := by
  have hne : availableGroups groups ≠ [] := by simpa using h
  rw [chooseGroup]
  split_ifs with h1 h2
  · exact pickGroup_mem _ _ _ hne
  · refine (List.filter_sublist _).subset (pickGroup_mem _ _ _ ?_)
    simp only [Bool.not_eq_true] at h2
    exact List.isEmpty_eq_false.mp h2
  · exact pickGroup_mem _ _ _ hne

/-- In the diversity phase (one department in the hall so far), if at
least two departments still have unseated students then the chosen
department is not the one already in the hall. -/
theorem chooseGroup_ne_of_two_avail (cs : Nat → Nat) (k : Nat)
    (groups : List (String × List Student)) (d : String)
    (hnd : ((availableGroups groups).map (fun g => g.1)).Nodup)
    (h2 : 2 ≤ (availableGroups groups).length) :
    (chooseGroup cs k groups [d]).1 ≠ d := by
  have hfil : ((availableGroups groups).filter
      (fun g => !(decide (g.1 ∈ [d])))).isEmpty = false := by
    rw [List.isEmpty_eq_false]
    intro hempty
    have hall : ∀ g ∈ availableGroups groups, g.1 = d := by
      intro g hg
      by_contra hne
      have : g ∈ (availableGroups groups).filter
          (fun g => !(decide (g.1 ∈ [d]))) :=
        List.mem_filter.mpr ⟨hg, by simpa using hne⟩
      rw [hempty] at this
      exact List.not_mem_nil g this
    match hav : availableGroups groups, hnd, h2 with
    | g1 :: g2 :: t, hnd2, _ =>
      rw [hav] at hall
      have e1 : g1.1 = d := hall g1 (by simp)
      have e2 : g2.1 = d := hall g2 (by simp)
      simp only [List.map_cons, List.nodup_cons, List.mem_cons,
        List.mem_map] at hnd2
      exact hnd2.1 (Or.inl (e1.trans e2.symm))
  have hpick := pickGroup_mem cs k ((availableGroups groups).filter
      (fun g => !(decide (g.1 ∈ [d]))))
    (by rw [← List.isEmpty_eq_false]; exact hfil)
  rw [chooseGroup, if_pos (by simp), if_neg (by rw [hfil]; exact Bool.false_ne_true)]
  have h5 := (List.mem_filter.mp hpick).2
  intro heq
  rw [heq] at h5
  simp at h5

/-- An available group is a group with a nonempty remaining roster. -/
theorem mem_availableGroups {groups : List (String × List Student)}
    {g : String × List Student} (h : g ∈ availableGroups groups) :
    g ∈ groups ∧ g.2 ≠ [] := by
  have := List.mem_filter.mp h
  exact ⟨this.1, by simpa using this.2⟩

/-- `consume` leaves the department keys unchanged. -/
theorem consume_keys (groups : List (String × List Student)) (d : String) :
    (consume groups d).map (fun g => g.1) = groups.map (fun g => g.1) := by
  rw [consume, List.map_map]
  exact List.map_congr_left (fun g _ => by by_cases h : g.1 = d <;> simp [h])

/-- `consume` only drops students, so group membership of a student in a
consumed grouping implies membership in the original grouping under the
same key. -/
theorem consume_wf {groups : List (String × List Student)} {d : String}
    (hwf : ∀ g ∈ groups, ∀ s ∈ g.2, s.dept = g.1) :
    ∀ g ∈ consume groups d, ∀ s ∈ g.2, s.dept = g.1 := by
  intro g hg s hs
  rcases List.mem_map.mp hg with ⟨g0, hg0, rfl⟩
  by_cases h : g0.1 = d
  · rw [if_pos h] at hs ⊢
    exact hwf g0 hg0 s (List.mem_of_mem_tail hs)
  · rw [if_neg h] at hs ⊢
    exact hwf g0 hg0 s hs

/-- The head the loops take from a chosen group really belongs to it. -/
theorem headD_mem {l : List Student} (h : l ≠ []) (d : Student) :
    l.headD d ∈ l := by
  cases l with
  | nil => exact absurd rfl h
  | cons a t => simp

/-- Every record the SEM loop emits sits in the current hall at or after
the current seat, or in a later hall of the list. -/
theorem semLoop_mem (cs : Nat → Nat) :
    ∀ (fuel k : Nat) (groups : List (String × List Student)) (halls : List Hall)
      (seat : Nat) (hallDepts : List String) (a : Alloc),
      a ∈ semLoop cs fuel k groups halls seat hallDepts →
      ∃ h0 rest, halls = h0 :: rest ∧
        ((a.hallNo = h0.hallno ∧ seat ≤ a.seatNo) ∨
          a.hallNo ∈ rest.map (fun h => h.hallno)) := by
  intro fuel
  induction fuel with
  | zero =>
    intro k groups halls seat hallDepts a ha
    exact absurd ha (List.not_mem_nil a)
  | succ n ih =>
    intro k groups halls seat hallDepts a ha
    match halls with
    | [] => exact absurd ha (List.not_mem_nil a)
    | hall :: rest =>
      refine ⟨hall, rest, rfl, ?_⟩
      rw [semLoop] at ha
      split_ifs at ha with hav hcap
      · exact absurd ha (List.not_mem_nil a)
      · rcases List.mem_cons.mp ha with rfl | harec
        · exact Or.inl ⟨rfl, le_refl _⟩
        · rcases ih _ _ _ _ _ a harec with ⟨h0', rest', heq, hcase⟩
          subst heq
          refine Or.inr ?_
          rcases hcase with ⟨hbh, _⟩ | hmem
          · exact List.mem_map.mpr ⟨h0', List.mem_cons_self _ _, hbh.symm⟩
          · rw [List.map_cons]
            exact List.mem_cons_of_mem _ hmem
      · rcases List.mem_cons.mp ha with rfl | harec
        · exact Or.inl ⟨rfl, le_refl _⟩
        · rcases ih _ _ _ _ _ a harec with ⟨h0', rest', heq, hcase⟩
          rw [List.cons.injEq] at heq
          obtain ⟨rfl, rfl⟩ := heq
          rcases hcase with ⟨hbh, hbs⟩ | hmem
          · exact Or.inl ⟨hbh, by omega⟩
          · exact Or.inr hmem

/-- Every record the Internal loop emits sits in the current hall at or
after the current bench, or in a later hall of the list. -/
theorem internalLoop_mem (cs : Nat → Nat) :
    ∀ (fuel k : Nat) (groups : List (String × List Student)) (halls : List Hall)
      (seat : Nat) (hallDepts : List String) (a : Alloc),
      a ∈ internalLoop cs fuel k groups halls seat hallDepts →
      ∃ h0 rest, halls = h0 :: rest ∧
        ((a.hallNo = h0.hallno ∧ seat ≤ a.seatNo) ∨
          a.hallNo ∈ rest.map (fun h => h.hallno)) := by
  intro fuel
  induction fuel with
  | zero =>
    intro k groups halls seat hallDepts a ha
    exact absurd ha (List.not_mem_nil a)
  | succ n ih =>
    intro k groups halls seat hallDepts a ha
    match halls with
    | [] => exact absurd ha (List.not_mem_nil a)
    | hall :: rest =>
      refine ⟨hall, rest, rfl, ?_⟩
      rw [internalLoop] at ha
      split_ifs at ha with hav hoth hcap hcap2
      · exact absurd ha (List.not_mem_nil a)
      · rcases List.mem_cons.mp ha with rfl | harec
        · exact Or.inl ⟨rfl, le_refl _⟩
        · rcases ih _ _ _ _ _ a harec with ⟨h0', rest', heq, hcase⟩
          subst heq
          refine Or.inr ?_
          rcases hcase with ⟨hbh, _⟩ | hmem
          · exact List.mem_map.mpr ⟨h0', List.mem_cons_self _ _, hbh.symm⟩
          · rw [List.map_cons]
            exact List.mem_cons_of_mem _ hmem
      · rcases List.mem_cons.mp ha with rfl | harec
        · exact Or.inl ⟨rfl, le_refl _⟩
        · rcases ih _ _ _ _ _ a harec with ⟨h0', rest', heq, hcase⟩
          rw [List.cons.injEq] at heq
          obtain ⟨rfl, rfl⟩ := heq
          rcases hcase with ⟨hbh, hbs⟩ | hmem
          · exact Or.inl ⟨hbh, by omega⟩
          · exact Or.inr hmem
      · rcases List.mem_cons.mp ha with rfl | ha2
        · exact Or.inl ⟨rfl, le_refl _⟩
        rcases List.mem_cons.mp ha2 with rfl | harec
        · exact Or.inl ⟨rfl, le_refl _⟩
        rcases ih _ _ _ _ _ a harec with ⟨h0', rest', heq, hcase⟩
        subst heq
        refine Or.inr ?_
        rcases hcase with ⟨hbh, _⟩ | hmem
        · exact List.mem_map.mpr ⟨h0', List.mem_cons_self _ _, hbh.symm⟩
        · rw [List.map_cons]
          exact List.mem_cons_of_mem _ hmem
      · rcases List.mem_cons.mp ha with rfl | ha2
        · exact Or.inl ⟨rfl, le_refl _⟩
        rcases List.mem_cons.mp ha2 with rfl | harec
        · exact Or.inl ⟨rfl, le_refl _⟩
        rcases ih _ _ _ _ _ a harec with ⟨h0', rest', heq, hcase⟩
        rw [List.cons.injEq] at heq
        obtain ⟨rfl, rfl⟩ := heq
        rcases hcase with ⟨hbh, hbs⟩ | hmem
        · exact Or.inl ⟨hbh, by omega⟩
        · exact Or.inr hmem

theorem mkAlloc_hallNo (h : Hall) (seat : Nat) (st : Student) :
    (mkAlloc h seat st).hallNo = h.hallno := rfl

theorem mkAlloc_seatNo (h : Hall) (seat : Nat) (st : Student) :
    (mkAlloc h seat st).seatNo = seat := rfl

theorem mkAlloc_dept (h : Hall) (seat : Nat) (st : Student) :
    (mkAlloc h seat st).dept = st.dept := rfl

/-- A hall whose name is not among the halls being filled receives no
student from the SEM loop. -/
theorem semLoop_countP_zero (cs : Nat → Nat) (fuel k : Nat)
    (groups : List (String × List Student)) (halls : List Hall)
    (seat : Nat) (hallDepts : List String) (x : String)
    (hx : x ∉ halls.map (fun h => h.hallno)) :
    (semLoop cs fuel k groups halls seat hallDepts).countP
      (fun a => decide (a.hallNo = x)) = 0 := by
  rw [List.countP_eq_zero]
  intro b hb hpb
  have hbx : b.hallNo = x := of_decide_eq_true hpb
  rw [← hbx] at hx
  rcases semLoop_mem cs fuel k groups halls seat hallDepts b hb with
    ⟨h0, rest, heq, hcase⟩
  subst heq
  rw [List.map_cons] at hx
  rcases hcase with ⟨hbh, _⟩ | hmem
  · exact hx (List.mem_cons.mpr (Or.inl hbh))
  · exact hx (List.mem_cons_of_mem _ hmem)

/-- A hall whose name is not among the halls being filled receives no
student from the Internal loop. -/
theorem internalLoop_countP_zero (cs : Nat → Nat) (fuel k : Nat)
    (groups : List (String × List Student)) (halls : List Hall)
    (seat : Nat) (hallDepts : List String) (x : String)
    (hx : x ∉ halls.map (fun h => h.hallno)) :
    (internalLoop cs fuel k groups halls seat hallDepts).countP
      (fun a => decide (a.hallNo = x)) = 0 := by
  rw [List.countP_eq_zero]
  intro b hb hpb
  have hbx : b.hallNo = x := of_decide_eq_true hpb
  rw [← hbx] at hx
  rcases internalLoop_mem cs fuel k groups halls seat hallDepts b hb with
    ⟨h0, rest, heq, hcase⟩
  subst heq
  rw [List.map_cons] at hx
  rcases hcase with ⟨hbh, _⟩ | hmem
  · exact hx (List.mem_cons.mpr (Or.inl hbh))
  · exact hx (List.mem_cons_of_mem _ hmem)

/-- Per-hall seat-count bound for the SEM loop: with positive capacities
and distinct hall names, the current hall receives at most
`capacity + 1 - seat` further students and every later hall at most its
capacity. -/
theorem semLoop_count (cs : Nat → Nat) :
    ∀ (fuel k : Nat) (groups : List (String × List Student)) (hall : Hall)
      (rest : List Hall) (seat : Nat) (hallDepts : List String),
      (∀ h ∈ hall :: rest, 1 ≤ h.capacity) →
      ((hall :: rest).map (fun h => h.hallno)).Nodup →
      seat ≤ hall.capacity →
      (semLoop cs fuel k groups (hall :: rest) seat hallDepts).countP
          (fun a => decide (a.hallNo = hall.hallno)) ≤ hall.capacity + 1 - seat ∧
      ∀ h ∈ rest,
        (semLoop cs fuel k groups (hall :: rest) seat hallDepts).countP
          (fun a => decide (a.hallNo = h.hallno)) ≤ h.capacity := by
  intro fuel
  induction fuel with
  | zero =>
    intro k groups hall rest seat hallDepts _ _ _
    exact ⟨by simp [semLoop], fun h _ => by simp [semLoop]⟩
  | succ n ih =>
    intro k groups hall rest seat hallDepts hcap hnd hscap
    have hnotin : hall.hallno ∉ rest.map (fun h => h.hallno) :=
      (List.nodup_cons.mp hnd).1
    have hneq : ∀ h ∈ rest, ¬ hall.hallno = h.hallno := by
      intro h hh heq
      exact hnotin (heq ▸ List.mem_map.mpr ⟨h, hh, rfl⟩)
    rw [semLoop]
    split_ifs with hav hcap1
    · exact ⟨by simp, fun h _ => by simp⟩
    · constructor
      · rw [List.countP_cons,
          semLoop_countP_zero cs n (k + 1) _ rest 1 [] _ hnotin]
        simp only [mkAlloc_hallNo, decide_eq_true_eq, if_true]
        omega
      · intro h hh
        rw [List.countP_cons]
        have hz := (fun heq => hneq h hh ((mkAlloc_hallNo hall seat
          (chosenStudent cs k groups hallDepts)) ▸ heq))
        rw [if_neg (by simpa using hz)]
        cases rest with
        | nil => exact absurd hh (List.not_mem_nil h)
        | cons h1 rest' =>
          have ihr := ih (k + 1)
            (consume groups (chooseGroup cs k groups hallDepts).1) h1 rest' 1 []
            (fun h2 hh2 => hcap h2 (List.mem_cons_of_mem _ hh2))
            (List.nodup_cons.mp hnd).2
            (hcap h1 (List.mem_cons_of_mem _ (List.mem_cons_self _ _)))
          rcases List.mem_cons.mp hh with rfl | hh'
          · have := ihr.1
            omega
          · simpa using ihr.2 h hh'
    · have ihs := ih (k + 1)
        (consume groups (chooseGroup cs k groups hallDepts).1) hall rest
        (seat + 1) (insertDept (chooseGroup cs k groups hallDepts).1 hallDepts)
        hcap hnd (by omega)
      constructor
      · rw [List.countP_cons]
        simp only [mkAlloc_hallNo, decide_eq_true_eq, if_true]
        have := ihs.1
        omega
      · intro h hh
        rw [List.countP_cons]
        have hz := (fun heq => hneq h hh ((mkAlloc_hallNo hall seat
          (chosenStudent cs k groups hallDepts)) ▸ heq))
        rw [if_neg (by simpa using hz)]
        simpa using ihs.2 h hh

/-- Per-hall student-count bound for the Internal loop: with positive
capacities and distinct hall names, the current hall receives at most
`2 * (capacity + 1 - seat)` further students and every later hall at most
`2 * capacity`. -/
theorem internalLoop_count (cs : Nat → Nat) :
    ∀ (fuel k : Nat) (groups : List (String × List Student)) (hall : Hall)
      (rest : List Hall) (seat : Nat) (hallDepts : List String),
      (∀ h ∈ hall :: rest, 1 ≤ h.capacity) →
      ((hall :: rest).map (fun h => h.hallno)).Nodup →
      seat ≤ hall.capacity →
      (internalLoop cs fuel k groups (hall :: rest) seat hallDepts).countP
          (fun a => decide (a.hallNo = hall.hallno))
        ≤ 2 * (hall.capacity + 1 - seat) ∧
      ∀ h ∈ rest,
        (internalLoop cs fuel k groups (hall :: rest) seat hallDepts).countP
          (fun a => decide (a.hallNo = h.hallno)) ≤ 2 * h.capacity := by
  intro fuel
  induction fuel with
  | zero =>
    intro k groups hall rest seat hallDepts _ _ _
    exact ⟨by simp [internalLoop], fun h _ => by simp [internalLoop]⟩
  | succ n ih =>
    intro k groups hall rest seat hallDepts hcap hnd hscap
    have hnotin : hall.hallno ∉ rest.map (fun h => h.hallno) :=
      (List.nodup_cons.mp hnd).1
    have hneq : ∀ h ∈ rest, ¬ hall.hallno = h.hallno := by
      intro h hh heq
      exact hnotin (heq ▸ List.mem_map.mpr ⟨h, hh, rfl⟩)
    have hrest : ∀ (k' : Nat) (groups' : List (String × List Student)),
        (∀ h ∈ rest,
          (internalLoop cs n k' groups' rest 1 []).countP
            (fun a => decide (a.hallNo = h.hallno)) ≤ 2 * h.capacity) := by
      intro k' groups' h hh
      cases rest with
      | nil => exact absurd hh (List.not_mem_nil h)
      | cons h1 rest' =>
        have ihr := ih k' groups' h1 rest' 1 []
          (fun h2 hh2 => hcap h2 (List.mem_cons_of_mem _ hh2))
          (List.nodup_cons.mp hnd).2
          (hcap h1 (List.mem_cons_of_mem _ (List.mem_cons_self _ _)))
        rcases List.mem_cons.mp hh with rfl | hh'
        · have := ihr.1
          omega
        · simpa using ihr.2 h hh'
    rw [internalLoop]
    split_ifs with hav hoth hcap1 hcap2
    · exact ⟨by simp, fun h _ => by simp⟩
    · constructor
      · rw [List.countP_cons,
          internalLoop_countP_zero cs n (k + 1) _ rest 1 [] _ hnotin]
        simp only [mkAlloc_hallNo, decide_eq_true_eq, if_true]
        omega
      · intro h hh
        rw [List.countP_cons]
        have hz := (fun heq => hneq h hh ((mkAlloc_hallNo hall seat
          (chosenStudent cs k groups hallDepts)) ▸ heq))
        rw [if_neg (by simpa using hz)]
        simpa using hrest (k + 1) _ h hh
    · have ihs := ih (k + 1)
        (consume groups (chooseGroup cs k groups hallDepts).1) hall rest
        (seat + 1) (insertDept (chooseGroup cs k groups hallDepts).1 hallDepts)
        hcap hnd (by omega)
      constructor
      · rw [List.countP_cons]
        simp only [mkAlloc_hallNo, decide_eq_true_eq, if_true]
        have := ihs.1
        omega
      · intro h hh
        rw [List.countP_cons]
        have hz := (fun heq => hneq h hh ((mkAlloc_hallNo hall seat
          (chosenStudent cs k groups hallDepts)) ▸ heq))
        rw [if_neg (by simpa using hz)]
        simpa using ihs.2 h hh
    · constructor
      · rw [List.countP_cons, List.countP_cons,
          internalLoop_countP_zero cs n (k + 2) _ rest 1 [] _ hnotin]
        simp only [mkAlloc_hallNo, decide_eq_true_eq, if_true]
        omega
      · intro h hh
        rw [List.countP_cons, List.countP_cons]
        have hz1 := (fun heq => hneq h hh ((mkAlloc_hallNo hall seat
          (chosenStudent cs k groups hallDepts)) ▸ heq))
        have hz2 := (fun heq => hneq h hh ((mkAlloc_hallNo hall seat
          ((benchMate cs k groups hallDepts).2.headD ⟨"", "", ""⟩)) ▸ heq))
        rw [if_neg (by simpa using hz1), if_neg (by simpa using hz2)]
        simpa using hrest (k + 2) _ h hh
    · have ihs := ih (k + 2)
        (consume (consume groups (chooseGroup cs k groups hallDepts).1)
          (benchMate cs k groups hallDepts).1) hall rest
        (seat + 1) (insertDept (benchMate cs k groups hallDepts).1
          (insertDept (chooseGroup cs k groups hallDepts).1 hallDepts))
        hcap hnd (by omega)
      constructor
      · rw [List.countP_cons, List.countP_cons]
        simp only [mkAlloc_hallNo, decide_eq_true_eq, if_true]
        have := ihs.1
        omega
      · intro h hh
        rw [List.countP_cons, List.countP_cons]
        have hz1 := (fun heq => hneq h hh ((mkAlloc_hallNo hall seat
          (chosenStudent cs k groups hallDepts)) ▸ heq))
        have hz2 := (fun heq => hneq h hh ((mkAlloc_hallNo hall seat
          ((benchMate cs k groups hallDepts).2.headD ⟨"", "", ""⟩)) ▸ heq))
        rw [if_neg (by simpa using hz1), if_neg (by simpa using hz2)]
        simpa using ihs.2 h hh

/-- The department keys of the grouping are exactly the sorted distinct
department names, hence distinct. -/
theorem groupStudents_keys_nodup (shuffle : List Student → List Student)
    (students : List Student) :
    ((groupStudents shuffle students).map (fun g => g.1)).Nodup := by
  rw [groupStudents, List.map_map]
  have : ((fun g : String × List Student => g.1) ∘
      (fun d => (d, shuffle (students.filter (fun s => decide (s.dept = d)))))) =
      id := rfl
  rw [this, List.map_id]
  exact (List.perm_insertionSort _ _).nodup_iff.mpr (List.nodup_dedup _)

/-- When the shuffle is a permutation, every student in a department's
group belongs to that department. -/
theorem groupStudents_wf (shuffle : List Student → List Student)
    (students : List Student) (hsh : ∀ l, (shuffle l).Perm l) :
    ∀ g ∈ groupStudents shuffle students, ∀ s ∈ g.2, s.dept = g.1 := by
  intro g hg s hs
  rw [groupStudents] at hg
  rcases List.mem_map.mp hg with ⟨d, _, rfl⟩
  have : s ∈ students.filter (fun s => decide (s.dept = d)) :=
    (hsh _).mem_iff.mp hs
  have := (List.mem_filter.mp this).2
  simpa using this

/-- One student, and a catalog whose first hall has capacity 0. -/
def exStudents2 : List Student := [⟨"A1", "Alice", "CSE"⟩]

/-- A zero-capacity hall followed by a normal one. -/
def exHalls2 : List Hall := [⟨"H0", 0⟩, ⟨"H1", 5⟩]

/-- C2 counterexample: the capacity check `current_seat_in_hall + 1 >
hall_capacity` runs only after a student has been seated, so a selected
hall of capacity 0 still receives one student — in both modes the
student count of hall `H0` (capacity 0) is 1, exceeding its capacity. -/
theorem seat_capacity_counterexample :
    (⟨"H0", 0⟩ : Hall) ∈ exHalls2 ∧
    ¬ ((allocateSem (fun l => l) (fun _ => 0) exStudents2 exHalls2).countP
        (fun a => decide (a.hallNo = "H0")) ≤ 0) ∧
    ¬ ((allocateInternal (fun l => l) (fun _ => 0) exStudents2 exHalls2).countP
        (fun a => decide (a.hallNo = "H0")) ≤ 2 * 0) := by decide

/-- C2 amended: provided every catalog hall has positive capacity and
hall names are distinct, no hall ever holds more students than its
capacity in SEM mode, nor more than twice its bench count in Internal
mode. -/
theorem seat_capacity_bound (shuffle : List Student → List Student)
    (cs : Nat → Nat) (students : List Student) (halls : List Hall)
    (hcap : ∀ h ∈ halls, 1 ≤ h.capacity)
    (hnd : (halls.map (fun h => h.hallno)).Nodup) :
    ∀ h ∈ halls,
      (allocateSem shuffle cs students halls).countP
        (fun a => decide (a.hallNo = h.hallno)) ≤ h.capacity ∧
      (allocateInternal shuffle cs students halls).countP
        (fun a => decide (a.hallNo = h.hallno)) ≤ 2 * h.capacity := by
  intro h hh
  have hgen : ∀ (n : Nat), h ∈ halls.take n ∨ h.hallno ∉ (halls.take n).map (fun x => x.hallno) := by
    intro n
    by_cases hmem : h ∈ halls.take n
    · exact Or.inl hmem
    · refine Or.inr ?_
      intro hcontra
      rcases List.mem_map.mp hcontra with ⟨h', hh', hname⟩
      have hsub : h' ∈ halls := (List.take_sublist n halls).subset hh'
      have : h' = h := by
        have hn2 : (halls.map (fun x => x.hallno)).Nodup := hnd
        have hinj := List.inj_on_of_nodup_map hn2
        exact hinj hsub hh hname
      rw [this] at hh'
      exact hmem hh'
  have htcap : ∀ (n : Nat), ∀ h2 ∈ halls.take n, 1 ≤ h2.capacity :=
    fun n h2 hh2 => hcap h2 ((List.take_sublist n halls).subset hh2)
  have htnd : ∀ (n : Nat), ((halls.take n).map (fun x => x.hallno)).Nodup := by
    intro n
    rw [List.map_take]
    exact (List.take_sublist n _).nodup hnd
  constructor
  · rcases hgen (selectHallCount false halls students.length) with hmem | hnot
    · rw [allocateSem]
      cases htake : halls.take (selectHallCount false halls students.length) with
      | nil => rw [htake] at hmem; exact absurd hmem (List.not_mem_nil h)
      | cons h0 rest =>
        rw [htake] at hmem
        have hres := semLoop_count cs
          (((groupStudents shuffle students).map (fun g => g.2.length)).foldr (· + ·) 0)
          0 (groupStudents shuffle students) h0 rest 1 []
          (htake ▸ htcap _) (htake ▸ htnd _)
          (htcap _ h0 (htake ▸ List.mem_cons_self _ _))
        rcases List.mem_cons.mp hmem with rfl | hmem'
        · have := hres.1
          omega
        · exact hres.2 h hmem'
    · rw [allocateSem, semLoop_countP_zero _ _ _ _ _ _ _ _ hnot]
      omega
  · rcases hgen (selectHallCount true halls students.length) with hmem | hnot
    · rw [allocateInternal]
      cases htake : halls.take (selectHallCount true halls students.length) with
      | nil => rw [htake] at hmem; exact absurd hmem (List.not_mem_nil h)
      | cons h0 rest =>
        rw [htake] at hmem
        have hres := internalLoop_count cs
          (((groupStudents shuffle students).map (fun g => g.2.length)).foldr (· + ·) 0)
          0 (groupStudents shuffle students) h0 rest 1 []
          (htake ▸ htcap _) (htake ▸ htnd _)
          (htcap _ h0 (htake ▸ List.mem_cons_self _ _))
        rcases List.mem_cons.mp hmem with rfl | hmem'
        · have := hres.1
          omega
        · exact hres.2 h hmem'
    · rw [allocateInternal, internalLoop_countP_zero _ _ _ _ _ _ _ _ hnot]
      omega

/-- A two-department roster and a single two-bench hall. -/
def exRoster : List Student := [⟨"A1", "Alice", "CSE"⟩, ⟨"B1", "Bob", "ECE"⟩]

/-- A single hall of capacity 2. -/
def exHallsOne : List Hall := [⟨"H1", 2⟩]

/-- Witness for `seat_capacity_bound` on a concrete roster and catalog. -/
theorem seat_capacity_bound_witness :
    (∀ h ∈ exHallsOne, 1 ≤ h.capacity) ∧
    ((exHallsOne.map (fun h => h.hallno)).Nodup) ∧
    ∀ h ∈ exHallsOne,
      (allocateSem (fun l => l) (fun _ => 0) exRoster exHallsOne).countP
        (fun a => decide (a.hallNo = h.hallno)) ≤ h.capacity ∧
      (allocateInternal (fun l => l) (fun _ => 0) exRoster exHallsOne).countP
        (fun a => decide (a.hallNo = h.hallno)) ≤ 2 * h.capacity :=
  ⟨by decide, by decide,
    seat_capacity_bound (fun l => l) (fun _ => 0) exRoster exHallsOne
      (by decide) (by decide)⟩

/-- C4: the department draws go through the ambient `random` module, so
two runs on identical inputs (same roster, same halls, same fixed
shuffle) can seat different students: generator states picking index 0
and index 1 produce different assignments, in both modes. -/
theorem allocation_depends_on_ambient_randomness :
    allocateSem (fun l => l) (fun _ => 0) exRoster exHallsOne ≠
      allocateSem (fun l => l) (fun _ => 1) exRoster exHallsOne ∧
    allocateInternal (fun l => l) (fun _ => 0) exRoster exHallsOne ≠
      allocateInternal (fun l => l) (fun _ => 1) exRoster exHallsOne := by
  exact ⟨by decide, by decide⟩

/-- C3: at any state of either allocator where the current hall holds
exactly one department `d` so far, if at least two departments still have
unseated students then the next student placed — and it is placed in the
current hall, at the current seat — belongs to a department other than
`d`: the first two distinct department choices of a hall differ whenever
two departments still have unseated students. -/
theorem seating_first_two_departments_distinct
    (cs : Nat → Nat) (fuel k : Nat) (groups : List (String × List Student))
    (hall : Hall) (rest : List Hall) (seat : Nat) (d : String)
    (hkeys : (groups.map (fun g => g.1)).Nodup)
    (hwf : ∀ g ∈ groups, ∀ s ∈ g.2, s.dept = g.1)
    (h2 : 2 ≤ (availableGroups groups).length) :
    (chosenStudent cs k groups [d]).dept ≠ d ∧
    (∃ tl, semLoop cs (fuel + 1) k groups (hall :: rest) seat [d] =
      mkAlloc hall seat (chosenStudent cs k groups [d]) :: tl) ∧
    (∃ tl, internalLoop cs (fuel + 1) k groups (hall :: rest) seat [d] =
      mkAlloc hall seat (chosenStudent cs k groups [d]) :: tl) := by
  have hav : ¬ (availableGroups groups).isEmpty = true := by
    intro he
    rw [List.isEmpty_iff] at he
    rw [he] at h2
    simp at h2
  have havn : ((availableGroups groups).map (fun g => g.1)).Nodup :=
    ((List.filter_sublist _).map _).nodup hkeys
  have hne := chooseGroup_ne_of_two_avail cs k groups d havn h2
  have hmem := chooseGroup_mem_avail cs k groups [d] hav
  obtain ⟨hmem', hne2⟩ := mem_availableGroups hmem
  have hdept : (chosenStudent cs k groups [d]).dept =
      (chooseGroup cs k groups [d]).1 :=
    hwf _ hmem' _ (headD_mem hne2 _)
  refine ⟨by rw [hdept]; exact hne, ?_, ?_⟩
  · rw [semLoop, if_neg hav]
    split_ifs with hcap
    · exact ⟨_, rfl⟩
    · exact ⟨_, rfl⟩
  · rw [internalLoop, if_neg hav]
    split_ifs with hoth hcap hcap2
    · exact ⟨_, rfl⟩
    · exact ⟨_, rfl⟩
    · exact ⟨_, rfl⟩
    · exact ⟨_, rfl⟩

/-- Two single-student departments, as a grouping state. -/
def exGroups3 : List (String × List Student) :=
  [("CSE", [⟨"A1", "Alice", "CSE"⟩]), ("ECE", [⟨"B1", "Bob", "ECE"⟩])]

/-- Witness for `seating_first_two_departments_distinct`: with department
CSE already in the hall and both CSE and ECE still available, the next
student seated is Bob of ECE. -/
theorem seating_first_two_departments_distinct_witness :
    ((exGroups3.map (fun g => g.1)).Nodup) ∧
    (∀ g ∈ exGroups3, ∀ s ∈ g.2, s.dept = g.1) ∧
    2 ≤ (availableGroups exGroups3).length ∧
    ((chosenStudent (fun _ => 0) 0 exGroups3 ["CSE"]).dept ≠ "CSE" ∧
      (∃ tl, semLoop (fun _ => 0) (0 + 1) 0 exGroups3 [⟨"H1", 2⟩] 2 ["CSE"] =
        mkAlloc ⟨"H1", 2⟩ 2 (chosenStudent (fun _ => 0) 0 exGroups3 ["CSE"]) :: tl) ∧
      (∃ tl, internalLoop (fun _ => 0) (0 + 1) 0 exGroups3 [⟨"H1", 2⟩] 2 ["CSE"] =
        mkAlloc ⟨"H1", 2⟩ 2 (chosenStudent (fun _ => 0) 0 exGroups3 ["CSE"]) :: tl)) :=
  ⟨by decide, by decide, by decide,
    seating_first_two_departments_distinct (fun _ => 0) 0 0 exGroups3
      ⟨"H1", 2⟩ [] 2 "CSE" (by decide) (by decide) (by decide)⟩

/-- Any two records the Internal loop puts on the same bench of the same
hall carry different departments (assuming well-formed groups with
distinct keys and distinct hall names). -/
theorem internalLoop_pairwise (cs : Nat → Nat) :
    ∀ (fuel k : Nat) (groups : List (String × List Student)) (halls : List Hall)
      (seat : Nat) (hallDepts : List String),
      ((groups.map (fun g => g.1)).Nodup) →
      (∀ g ∈ groups, ∀ s ∈ g.2, s.dept = g.1) →
      ((halls.map (fun h => h.hallno)).Nodup) →
      (internalLoop cs fuel k groups halls seat hallDepts).Pairwise
        (fun a b => a.hallNo = b.hallNo → a.seatNo = b.seatNo → a.dept ≠ b.dept) := by
  intro fuel
  induction fuel with
  | zero =>
    intro k groups halls seat hallDepts _ _ _
    simp [internalLoop]
  | succ n ih =>
    intro k groups halls seat hallDepts hkeys hwf hnd
    match halls with
    | [] => simp [internalLoop]
    | hall :: rest =>
      have hnotin : hall.hallno ∉ rest.map (fun h => h.hallno) :=
        (List.nodup_cons.mp hnd).1
      have hnext : ∀ (k' : Nat) (groups' : List (String × List Student)),
          ∀ b ∈ internalLoop cs n k' groups' rest 1 [],
            b.hallNo ≠ hall.hallno := by
        intro k' groups' b hb heqn
        rcases internalLoop_mem cs n _ _ _ _ _ b hb with ⟨h0', rest', heq, hcase⟩
        have : b.hallNo ∈ rest.map (fun h => h.hallno) := by
          subst heq
          rcases hcase with ⟨hbh, _⟩ | hmm
          · exact List.mem_map.mpr ⟨h0', List.mem_cons_self _ _, hbh.symm⟩
          · rw [List.map_cons]
            exact List.mem_cons_of_mem _ hmm
        rw [heqn] at this
        exact hnotin this
      have hstay : ∀ (k' : Nat) (groups' : List (String × List Student))
          (hd' : List String),
          ∀ b ∈ internalLoop cs n k' groups' (hall :: rest) (seat + 1) hd',
            b.hallNo = hall.hallno → b.seatNo = seat → False := by
        intro k' groups' hd' b hb hbh hbs
        rcases internalLoop_mem cs n _ _ _ _ _ b hb with ⟨h0', rest', heq, hcase⟩
        rw [List.cons.injEq] at heq
        obtain ⟨rfl, rfl⟩ := heq
        rcases hcase with ⟨_, hs⟩ | hmm
        · omega
        · rw [hbh] at hmm
          exact hnotin hmm
      rw [internalLoop]
      split_ifs with hav hoth hcap hcap2
      · simp
      · refine List.pairwise_cons.mpr ⟨?_, ?_⟩
        · intro b hb hhall _hseat
          exact (hnext _ _ b hb
            ((mkAlloc_hallNo hall seat _).symm.trans hhall).symm).elim
        · exact ih (k + 1) _ rest 1 []
            (by rw [consume_keys]; exact hkeys) (consume_wf hwf)
            (List.nodup_cons.mp hnd).2
      · refine List.pairwise_cons.mpr ⟨?_, ?_⟩
        · intro b hb hhall hseat
          exact (hstay _ _ _ b hb
            ((mkAlloc_hallNo hall seat _).symm.trans hhall).symm
            ((mkAlloc_seatNo hall seat _).symm.trans hseat).symm).elim
        · exact ih (k + 1) _ (hall :: rest) (seat + 1) _
            (by rw [consume_keys]; exact hkeys) (consume_wf hwf) hnd
      · have hmemg := chooseGroup_mem_avail cs k groups hallDepts hav
        obtain ⟨hg_mem, hg_ne⟩ := mem_availableGroups hmemg
        have hdept1 : (chosenStudent cs k groups hallDepts).dept =
            (chooseGroup cs k groups hallDepts).1 :=
          hwf _ hg_mem _ (headD_mem hg_ne _)
        have hothne : internalOther cs k groups hallDepts ≠ [] := by
          simp only [Bool.not_eq_true] at hoth
          exact List.isEmpty_eq_false.mp hoth
        have hbm := pickGroup_mem cs (k + 1) _ hothne
        have hbm' := List.mem_filter.mp hbm
        obtain ⟨hbm_mem, hbm_ne2⟩ := mem_availableGroups hbm'.1
        have hbmkey : ¬ (benchMate cs k groups hallDepts).1 =
            (chooseGroup cs k groups hallDepts).1 := by
          have := hbm'.2
          simpa using this
        have hdept2 : ((benchMate cs k groups hallDepts).2.headD ⟨"", "", ""⟩).dept =
            (benchMate cs k groups hallDepts).1 :=
          consume_wf hwf _ hbm_mem _ (headD_mem hbm_ne2 _)
        refine List.pairwise_cons.mpr ⟨?_, List.pairwise_cons.mpr ⟨?_, ?_⟩⟩
        · intro b hb _hhall _hseat
          rcases List.mem_cons.mp hb with rfl | hb'
          · rw [mkAlloc_dept, mkAlloc_dept, hdept1, hdept2]
            exact fun he => hbmkey he.symm
          · exact (hnext _ _ b hb'
              ((mkAlloc_hallNo hall seat _).symm.trans _hhall).symm).elim
        · intro b hb hhall _hseat
          exact (hnext _ _ b hb
            ((mkAlloc_hallNo hall seat _).symm.trans hhall).symm).elim
        · exact ih (k + 2) _ rest 1 []
            (by rw [consume_keys, consume_keys]; exact hkeys)
            (consume_wf (consume_wf hwf)) (List.nodup_cons.mp hnd).2
      · have hmemg := chooseGroup_mem_avail cs k groups hallDepts hav
        obtain ⟨hg_mem, hg_ne⟩ := mem_availableGroups hmemg
        have hdept1 : (chosenStudent cs k groups hallDepts).dept =
            (chooseGroup cs k groups hallDepts).1 :=
          hwf _ hg_mem _ (headD_mem hg_ne _)
        have hothne : internalOther cs k groups hallDepts ≠ [] := by
          simp only [Bool.not_eq_true] at hoth
          exact List.isEmpty_eq_false.mp hoth
        have hbm := pickGroup_mem cs (k + 1) _ hothne
        have hbm' := List.mem_filter.mp hbm
        obtain ⟨hbm_mem, hbm_ne2⟩ := mem_availableGroups hbm'.1
        have hbmkey : ¬ (benchMate cs k groups hallDepts).1 =
            (chooseGroup cs k groups hallDepts).1 := by
          have := hbm'.2
          simpa using this
        have hdept2 : ((benchMate cs k groups hallDepts).2.headD ⟨"", "", ""⟩).dept =
            (benchMate cs k groups hallDepts).1 :=
          consume_wf hwf _ hbm_mem _ (headD_mem hbm_ne2 _)
        refine List.pairwise_cons.mpr ⟨?_, List.pairwise_cons.mpr ⟨?_, ?_⟩⟩
        · intro b hb _hhall _hseat
          rcases List.mem_cons.mp hb with rfl | hb'
          · rw [mkAlloc_dept, mkAlloc_dept, hdept1, hdept2]
            exact fun he => hbmkey he.symm
          · exact (hstay _ _ _ b hb'
              ((mkAlloc_hallNo hall seat _).symm.trans _hhall).symm
              ((mkAlloc_seatNo hall seat _).symm.trans _hseat).symm).elim
        · intro b hb hhall hseat
          exact (hstay _ _ _ b hb
            ((mkAlloc_hallNo hall seat _).symm.trans hhall).symm
            ((mkAlloc_seatNo hall seat _).symm.trans hseat).symm).elim
        · exact ih (k + 2) _ (hall :: rest) (seat + 1) _
            (by rw [consume_keys, consume_keys]; exact hkeys)
            (consume_wf (consume_wf hwf)) hnd

/-- C10: in Internal (TWO_PER_BENCH) mode, (i) any two students on the
same bench of the same hall belong to different departments, and (ii) at
a state where — after the first student of the bench is seated — no
department other than that student's has unseated students, the bench is
left with a single occupant. -/
theorem internal_bench_pairing :
    (∀ (shuffle : List Student → List Student) (cs : Nat → Nat)
       (students : List Student) (halls : List Hall),
       (∀ l, (shuffle l).Perm l) →
       ((halls.map (fun h => h.hallno)).Nodup) →
       (allocateInternal shuffle cs students halls).Pairwise
         (fun a b => a.hallNo = b.hallNo → a.seatNo = b.seatNo → a.dept ≠ b.dept)) ∧
    (∀ (cs : Nat → Nat) (fuel k : Nat) (groups : List (String × List Student))
       (hall : Hall) (rest : List Hall) (seat : Nat) (hallDepts : List String),
       ¬ (availableGroups groups).isEmpty = true →
       (internalOther cs k groups hallDepts).isEmpty = true →
       (((hall :: rest).map (fun h => h.hallno)).Nodup) →
       (internalLoop cs (fuel + 1) k groups (hall :: rest) seat hallDepts).countP
         (fun a => decide (a.hallNo = hall.hallno ∧ a.seatNo = seat)) = 1) := by
  constructor
  · intro shuffle cs students halls hsh hnd
    rw [allocateInternal]
    refine internalLoop_pairwise cs _ 0 _ _ 1 []
      (groupStudents_keys_nodup shuffle students)
      (groupStudents_wf shuffle students hsh) ?_
    rw [List.map_take]
    exact (List.take_sublist _ _).nodup hnd
  · intro cs fuel k groups hall rest seat hallDepts hav hoth hnd
    have hnotin : hall.hallno ∉ rest.map (fun h => h.hallno) :=
      (List.nodup_cons.mp hnd).1
    have htail : ∀ (k' : Nat) (groups' : List (String × List Student))
        (halls' : List Hall) (seat' : Nat) (hd' : List String),
        (halls' = rest ∨ (halls' = hall :: rest ∧ seat' = seat + 1)) →
        (internalLoop cs fuel k' groups' halls' seat' hd').countP
          (fun a => decide (a.hallNo = hall.hallno ∧ a.seatNo = seat)) = 0 := by
      intro k' groups' halls' seat' hd' hshape
      rw [List.countP_eq_zero]
      intro b hb hpb
      have hpb' := of_decide_eq_true hpb
      rcases hshape with heqh | ⟨heqh, heqs⟩
      · rw [heqh] at hb
        rcases internalLoop_mem cs fuel _ _ _ _ _ b hb with ⟨h0', rest', heq, hcase⟩
        have : b.hallNo ∈ rest.map (fun h => h.hallno) := by
          rw [heq, List.map_cons]
          rcases hcase with ⟨hbh, _⟩ | hmm
          · exact List.mem_cons.mpr (Or.inl hbh)
          · exact List.mem_cons_of_mem _ hmm
        rw [hpb'.1] at this
        exact hnotin this
      · rw [heqh, heqs] at hb
        rcases internalLoop_mem cs fuel _ _ _ _ _ b hb with ⟨h0', rest', heq, hcase⟩
        rw [List.cons.injEq] at heq
        obtain ⟨rfl, rfl⟩ := heq
        rcases hcase with ⟨_, hs⟩ | hmm
        · have h2 := hpb'.2
          omega
        · rw [hpb'.1] at hmm
          exact hnotin hmm
    rw [internalLoop, if_neg hav, if_pos hoth]
    split_ifs with hcap
    · rw [List.countP_cons, htail (k + 1) _ rest 1 [] (Or.inl rfl)]
      simp [mkAlloc_hallNo, mkAlloc_seatNo]
    · rw [List.countP_cons,
        htail (k + 1) _ (hall :: rest) (seat + 1) _ (Or.inr ⟨rfl, rfl⟩)]
      simp [mkAlloc_hallNo, mkAlloc_seatNo]

/-- A single-department grouping state: after its first student is
seated, no other department remains for the bench-mate. -/
def exGroupsB : List (String × List Student) :=
  [("CSE", [⟨"A1", "Alice", "CSE"⟩, ⟨"A2", "Ann", "CSE"⟩])]

/-- Witness for `internal_bench_pairing`: part (i) applied to the
two-department roster, part (ii) to a single-department state where the
bench keeps one occupant. -/
theorem internal_bench_pairing_witness :
    ((∀ l, ((fun l => l) l : List Student).Perm l) ∧
      ((exHallsOne.map (fun h => h.hallno)).Nodup) ∧
      (allocateInternal (fun l => l) (fun _ => 0) exRoster exHallsOne).Pairwise
        (fun a b => a.hallNo = b.hallNo → a.seatNo = b.seatNo → a.dept ≠ b.dept)) ∧
    (¬ (availableGroups exGroupsB).isEmpty = true ∧
      (internalOther (fun _ => 0) 0 exGroupsB []).isEmpty = true ∧
      ((([⟨"H1", 2⟩] : List Hall).map (fun h => h.hallno)).Nodup) ∧
      (internalLoop (fun _ => 0) (1 + 1) 0 exGroupsB [⟨"H1", 2⟩] 1 []).countP
        (fun a => decide (a.hallNo = "H1" ∧ a.seatNo = 1)) = 1) :=
  ⟨⟨fun l => List.Perm.refl l, by decide,
    internal_bench_pairing.1 (fun l => l) (fun _ => 0) exRoster exHallsOne
      (fun l => List.Perm.refl l) (by decide)⟩,
   ⟨by decide, by decide, by decide,
    internal_bench_pairing.2 (fun _ => 0) 1 0 exGroupsB ⟨"H1", 2⟩ [] 1 []
      (by decide) (by decide) (by decide)⟩⟩

end OneStop
